import Mathlib

/-!
A verification development for the request-processing core of the
actionhero framework: the versioned action registry, the version
resolver, the recursive parameter schema engine (defaults, formatters,
validators, required/missing semantics, safelisting), the immutability
guard over validated params, and the dispatcher producing a response
envelope.  The core implementation is not present in this source tree
(only its test suite and peripheral modules are), so the definitions
below are modelled from the specification and checked against the
behaviours the test suite pins down.
-/

namespace ActionHero

/-- A JavaScript-like runtime value: the raw inputs, normalized params and
response fields of the framework are such values. -/
inductive Value where
  | undef : Value
  | null : Value
  | bool : Bool → Value
  | str : String → Value
  | num : Int → Value
  | list : List Value → Value
  | obj : List (String × Value) → Value
deriving Repr

mutual
/-- Structural equality on values (the framework compares raw scalar values
against the missing-value policy). -/
def valueEq : Value → Value → Bool
  | .undef, .undef => true
  | .null, .null => true
  | .bool a, .bool b => a == b
  | .str a, .str b => a == b
  | .num a, .num b => a == b
  | .list a, .list b => valueListEq a b
  | .obj a, .obj b => valueObjEq a b
  | _, _ => false

def valueListEq : List Value → List Value → Bool
  | [], [] => true
  | x :: xs, y :: ys => valueEq x y && valueListEq xs ys
  | _, _ => false

def valueObjEq : List (String × Value) → List (String × Value) → Bool
  | [], [] => true
  | (k, x) :: xs, (l, y) :: ys => k == l && valueEq x y && valueObjEq xs ys
  | _, _ => false
end

/-- Look a key up in an object-shaped association list; absent keys read as
`undef`, as in JavaScript. -/
def objGet (fields : List (String × Value)) (key : String) : Value :=
  match fields.find? (fun p => p.1 == key) with
  | none => .undef
  | some p => p.2

/-- Modelled from the spec: the missing-value policy, "a configurable set of
values that count as absent for required-checking and default-substitution
purposes".  The default policy treats null, empty string and the
undefined-equivalent as missing. -/
def defaultMissingParamChecks : List Value :=
  [.null, .str "", .undef]

/-- Modelled from the spec: a value counts as missing if it is the
undefined-equivalent in the raw bag, or if it equals any element of the
active missing-value policy. -/
def isMissing (policy : List Value) (v : Value) : Bool :=
  valueEq v .undef || policy.any (fun p => valueEq v p)

end ActionHero

namespace ActionHero

/-- Modelled from the spec: the ambient context passed explicitly into every
validator and formatter call (the framework's API object, whose `id` names
the process instance). -/
structure ApiCtx where
  id : String

/-- The outcome of one validator call: the validator either raises an error
or returns a value. -/
inductive VOutcome where
  | raise : String → VOutcome
  | ret : Value → VOutcome

/-- A validator: a function of the ambient context and the (formatted)
value. -/
def Validator := ApiCtx → Value → VOutcome

/-- A formatter: a function of the ambient context and the current value. -/
def Formatter := ApiCtx → Value → Value

/-- Modelled from the spec: a validator or formatter entry is either a
direct callable or an indirect reference resolvable against a shared lookup
table. -/
inductive FnRef (α : Type) where
  | direct : α → FnRef α
  | lookup : String → FnRef α

/-- A lookup table for indirect validator/formatter references. -/
def LookupTable (α : Type) := String → Option α

/-- A validator call succeeds exactly when it returns `true` or the
undefined-equivalent. -/
def vOutcomeOk : VOutcome → Bool
  | .ret (.bool true) => true
  | .ret .undef => true
  | _ => false

/-- The error value a failing validator outcome surfaces: a raised message
or a returned string is wrapped as an `Error: `-prefixed string; any other
returned value is surfaced verbatim. -/
def vOutcomeError : VOutcome → Value
  | .raise msg => .str ("Error: " ++ msg)
  | .ret (.str s) => .str ("Error: " ++ s)
  | .ret v => v

/-- Modelled from the spec: resolve a validator/formatter entry against the
lookup table; resolution happens per invocation. -/
def resolveRef {α : Type} (table : LookupTable α) : FnRef α → Option α
  | .direct f => some f
  | .lookup path => table path

/-- Modelled from the spec (Chain Runner): apply each validator in declared
order to the value; the first failure short-circuits the chain and its
error value is the sole result; if every validator returns true or the
undefined-equivalent the chain succeeds (`none`).  An unresolvable
indirect reference fails the chain. -/
def runValidators (ctx : ApiCtx) (table : LookupTable Validator)
    (vs : List (FnRef Validator)) (v : Value) : Option Value :=
  match vs with
  | [] => none
  | r :: rest =>
    match resolveRef table r with
    | none => some (.str "Error: validator not found")
    | some f =>
      let o := f ctx v
      if vOutcomeOk o then runValidators ctx table rest v
      else some (vOutcomeError o)

/-- Modelled from the spec (Chain Runner): apply each formatter in declared
order, piping each result into the next.  An unresolvable indirect
reference leaves the value unchanged at that step. -/
def runFormatters (ctx : ApiCtx) (table : LookupTable Formatter)
    (fs : List (FnRef Formatter)) (v : Value) : Value :=
  match fs with
  | [] => v
  | r :: rest =>
    match resolveRef table r with
    | none => runFormatters ctx table rest v
    | some f => runFormatters ctx table rest (f ctx v)

/-- Modelled from the spec: a ParameterSpec is either leaf-shaped —
`required`, an optional `default` (a zero-argument producer), an ordered
validator list and an ordered formatter list — or schema-shaped, a mapping
from child names to ParameterSpecs, recursively; never both. -/
inductive ParamSpec where
  | leaf : Bool → Option (Unit → Value) → List (FnRef Validator) →
      List (FnRef Formatter) → ParamSpec
  | schema : List (String × ParamSpec) → ParamSpec

/-- A leaf spec with only a required flag, as in `{ required: true }`. -/
def ParamSpec.reqOnly (required : Bool) : ParamSpec :=
  .leaf required none [] []

/-- The engine's per-call environment: ambient context, active
missing-value policy and the two indirect lookup tables. -/
structure Env where
  ctx : ApiCtx
  policy : List Value
  vtable : LookupTable Validator
  ftable : LookupTable Formatter

/-- Extend a dotted error path by one key. -/
def dottedPath (prefx key : String) : String :=
  if prefx = "" then key else prefx ++ "." ++ key

/-- The error value for a missing required parameter, naming the full
dotted path to the missing leaf. -/
def missingParamError (path : String) : Value :=
  .str ("Error: " ++ path ++ " is a required parameter for this action")

/-- Steps 4 and 5 of the leaf algorithm for a present (or defaulted)
value: run the formatter chain, then the validator chain against the
formatted value; the formatted value is the normalized output either way,
and a validator-chain failure is the node's error. -/
def processPresent (env : Env) (vals : List (FnRef Validator))
    (fmts : List (FnRef Formatter)) (v : Value) : Value × Option Value :=
  let fv := runFormatters env.ctx env.ftable fmts v
  (fv, runValidators env.ctx env.vtable vals fv)

mutual
/-- Modelled from the spec (Parameter Schema Engine): process one
ParameterSpec node against one raw value, yielding the node's normalized
output (`none` when an optional missing key is omitted) and the node's
first error.  Leaf order is fixed: missing check against the policy;
default substitution; required failure naming the dotted path; formatter
chain; validator chain.  A schema node recurses into every declared child
with the path prefix extended by the parent key. -/
def processNode (env : Env) (path : String) (spec : ParamSpec) (v : Value) :
    Option Value × Option Value :=
  match spec with
  | .leaf required dflt vals fmts =>
    if isMissing env.policy v then
      match dflt with
      | some producer =>
        let (fv, err) := processPresent env vals fmts (producer ())
        (some fv, err)
      | none =>
        if required then (none, some (missingParamError path))
        else (none, none)
    else
      let (fv, err) := processPresent env vals fmts v
      (some fv, err)
  | .schema children =>
    let fields := match v with | .obj fs => fs | _ => []
    let (out, err) := processChildren env path children fields
    (some (.obj out), err)

/-- Process the declared children of a schema node (or the top-level
inputs mapping) in declaration order against an object's fields.  Every
declared child is processed — a failing leaf does not prevent unrelated
leaves from being processed — but exactly one failure is collected: the
first one encountered in declaration order. -/
def processChildren (env : Env) (path : String) :
    List (String × ParamSpec) → List (String × Value) →
    List (String × Value) × Option Value
  | [], _ => ([], none)
  | (key, cspec) :: rest, fields =>
    let (o, err) := processNode env (dottedPath path key) cspec
      (objGet fields key)
    let (out, restErr) := processChildren env path rest fields
    (match o with
      | none => out
      | some v' => (key, v') :: out,
     match err with
      | some e => some e
      | none => restErr)
end

/-- Modelled from the spec: the whole-input-bag entry point of the
Parameter Schema Engine — the action's top-level `inputs` mapping applied
to the raw input bag, with an empty path prefix. -/
def processInputs (env : Env) (specs : List (String × ParamSpec))
    (raw : List (String × Value)) :
    List (String × Value) × Option Value :=
  processChildren env "" specs raw

/-- Modelled from the spec: the reserved parameter names — the action-name
field, the version-selector field, and the framework-owned safelisted
names carrying a file upload or a callback identifier. -/
def reservedParams : List String :=
  ["file", "callback", "action", "apiVersion"]

/-- A handler body, modelled as a sequence of effect statements the
dispatcher executes: writes into the mutable response container (constant
values, values read from the guarded params, the whole params tree, or the
response's error field) and attempted assignments into the guarded params
object. -/
inductive Stmt where
  | setResponse : String → Value → Stmt
  | copyParamToResponse : String → String → Stmt
  | setResponseToParams : String → Stmt
  | assignParam : String → Value → Stmt
  | setError : Value → Stmt

/-- An action definition as written by its author; `name` may be absent
(registration rejects that) and `version` may be absent (it defaults to
1). -/
structure RawActionDef where
  name : Option String
  description : String
  version : Option Int
  inputs : List (String × ParamSpec)
  handler : List Stmt

/-- A registered action definition (one version of one action). -/
structure ActionDef where
  name : String
  description : String
  version : Int
  inputs : List (String × ParamSpec)
  handler : List Stmt

/-- Modelled from the spec (Action Registry): per action name, the set of
available version numbers with their definitions. -/
structure Registry where
  actions : List (String × List (Int × ActionDef))

/-- Modelled from the spec: validating a definition at registration time
fails if `name` is absent, or if any top-level input name collides with a
reserved parameter name. -/
def RawActionDef.validate (d : RawActionDef) : Except String Unit :=
  match d.name with
  | none => .error "name is required for this action"
  | some n =>
    match d.inputs.find? (fun p => reservedParams.contains p.1) with
    | some p =>
      .error ("input `" ++ p.1 ++ "` in action `" ++ n ++ "` is a reserved param")
    | none => .ok ()

/-- The version set registered under a name, or `none` for an unknown
action. -/
def Registry.versionsOf (reg : Registry) (name : String) :
    Option (List (Int × ActionDef)) :=
  (reg.actions.find? (fun p => p.1 == name)).map (fun p => p.2)

/-- The definition registered under an exact (name, version) pair. -/
def Registry.lookup (reg : Registry) (name : String) (v : Int) :
    Option ActionDef :=
  (reg.versionsOf name).bind
    (fun vs => (vs.find? (fun p => p.1 == v)).map (fun p => p.2))

/-- Modelled from the spec: successful registration inserts the definition
into the name-to-versions map under `version` (defaulting to 1 when the
definition declares none); a bad definition fails the registration. -/
def Registry.register (reg : Registry) (d : RawActionDef) :
    Except String Registry :=
  match d.validate with
  | .error e => .error e
  | .ok _ =>
    match d.name with
    | none => .error "name is required for this action"
    | some n =>
      let v := d.version.getD 1
      let ad : ActionDef :=
        { name := n, description := d.description, version := v,
          inputs := d.inputs, handler := d.handler }
      let rest := reg.actions.filter (fun p => p.1 != n)
      let prior := (reg.versionsOf n).getD []
      .ok { actions := (n, prior ++ [(v, ad)]) :: rest }

/-- The latest registered version: the maximum version number present. -/
def latestVersion : List (Int × ActionDef) → Int
  | [] => 0
  | (v, _) :: rest => rest.foldl (fun m p => max m p.1) v

/-- The single combined resolution error: "no action" and "no matching
version" are indistinguishable to the caller. -/
def unknownActionError : Value :=
  .str "Error: unknown action or invalid apiVersion"

/-- Modelled from the spec (Version Resolver): for an unknown action, or a
(name, version) pair with no definition, fail with the combined error;
with no requested version, select the latest registered version. -/
def Registry.resolve (reg : Registry) (name : String)
    (requested : Option Int) : Except Value (Int × ActionDef) :=
  match reg.versionsOf name with
  | none => .error unknownActionError
  | some vs =>
    let v := match requested with
      | some rv => rv
      | none => latestVersion vs
    match vs.find? (fun p => p.1 == v) with
    | some p => .ok (v, p.2)
    | none => .error unknownActionError

/-- Set a key in an object-shaped association list, replacing an existing
binding or appending a new one. -/
def objSet (fields : List (String × Value)) (key : String) (v : Value) :
    List (String × Value) :=
  if fields.any (fun p => p.1 == key) then
    fields.map (fun p => if p.1 == key then (key, v) else p)
  else
    fields ++ [(key, v)]

/-- The mutable response container a handler body writes into: result
fields plus an optional error field. -/
structure Response where
  fields : List (String × Value)
  error : Option Value

/-- Modelled from the spec (Immutability Guard): the error surfaced when
handler code attempts to assign into the guarded params object, naming the
attempted property. -/
def guardedAssignError (key : String) : Value :=
  .str ("Error: Cannot assign to read only property '" ++ key ++
    "' of object '#<Object>'")

/-- Execute a handler body statement by statement against the guarded
params and the mutable response container.  An attempted assignment into
the guarded params halts the handler with the guard's error (later
statements do not run and params are never changed); response writes
always succeed. -/
def execStmts (params : List (String × Value)) :
    List Stmt → Response → Response × Option Value
  | [], r => (r, none)
  | s :: rest, r =>
    match s with
    | .assignParam key _ => (r, some (guardedAssignError key))
    | .setResponse key v =>
      execStmts params rest { r with fields := objSet r.fields key v }
    | .copyParamToResponse rkey pkey =>
      execStmts params rest
        { r with fields := objSet r.fields rkey (objGet params pkey) }
    | .setResponseToParams rkey =>
      execStmts params rest
        { r with fields := objSet r.fields rkey (.obj params) }
    | .setError v =>
      execStmts params rest { r with error := some v }

/-- The response envelope of one invocation: the handler's response
fields, the optional error, and the requester information echo of received
params. -/
structure Envelope where
  response : List (String × Value)
  error : Option Value
  receivedParams : List (String × Value)

/-- The version the caller requested, read off the raw input bag's
version-selector field. -/
def requestedVersionOf (raw : List (String × Value)) : Option Int :=
  match objGet raw "apiVersion" with
  | .num n => some n
  | _ => none

/-- Modelled from the spec (Safelist Filter): the raw inputs echoed beyond
the declared ones — those whose top-level name is in the process-wide
safelist; everything else the caller supplied is silently dropped. -/
def safelistEcho (safelist declared : List String)
    (raw : List (String × Value)) : List (String × Value) :=
  raw.filter (fun p =>
    safelist.contains p.1 && !declared.contains p.1 &&
      !reservedParams.contains p.1)

/-- The validated params of one invocation: the framework-controlled base
fields, the safelist echo, and the engine's normalized output. -/
def invokeParams (safelist : List String) (name : String) (v : Int)
    (d : ActionDef) (normalized raw : List (String × Value)) :
    List (String × Value) :=
  [("action", .str name), ("apiVersion", .num v)] ++
    safelistEcho safelist (d.inputs.map (fun p => p.1)) raw ++ normalized

/-- Modelled from the spec (Dispatcher): one invocation — resolve the
(name, version) pair, validate/normalize the raw inputs through the
Parameter Schema Engine, run the handler body against the guarded params
and a mutable response container, and always package the outcome as a
well-formed envelope: resolution and validation failures and handler
faults all land in the envelope's error field; a handler-written error
value is carried through unmodified. -/
def runAction (reg : Registry) (env : Env) (safelist : List String)
    (name : String) (raw : List (String × Value)) : Envelope :=
  match reg.resolve name (requestedVersionOf raw) with
  | .error e =>
    { response := [], error := some e,
      receivedParams := [("action", .str name)] }
  | .ok (v, d) =>
    let (normalized, verr) := processInputs env d.inputs raw
    let params := invokeParams safelist name v d normalized raw
    match verr with
    | some e =>
      { response := [], error := some e, receivedParams := params }
    | none =>
      let (resp, fault) :=
        execStmts params d.handler { fields := [], error := none }
      { response := resp.fields,
        error := match fault with
          | some f => some f
          | none => resp.error,
        receivedParams := params }

/-! Concrete fixtures mirroring the action definitions the repository's
test suite registers. -/

/-- JavaScript `String(v)` coercion for the scalar values the fixtures
format. -/
def jsToString : Value → String
  | .undef => "undefined"
  | .null => "null"
  | .bool b => if b then "true" else "false"
  | .str s => s
  | .num n => toString n
  | .list _ => ""
  | .obj _ => "[object Object]"

/-- The `fancyParam` validator of the flat test action: returns nothing on
`"abc123"`, otherwise returns a failure message naming the ambient
context's id. -/
def fancyValidator : Validator := fun ctx v =>
  if valueEq v (.str "abc123") then .ret .undef
  else .ret (.str ("fancyParam should be \"abc123\".  so says " ++ ctx.id))

/-- The `fancyParam` validator of the schema test action: returns `true`
on `"abc123"`, otherwise returns a failure message naming the ambient
context's id. -/
def fancyValidatorSchema : Validator := fun ctx v =>
  if valueEq v (.str "abc123") then .ret (.bool true)
  else .ret (.str ("fancyParam should be \"abc123\".  so says " ++ ctx.id))

/-- The `fancyParam` formatter: `String(s)`. -/
def stringFormatter : Formatter := fun _ v => .str (jsToString v)

/-- The inputs of the flat test action: a required param, an optional
param, and an optional param with a producer default, a validator and a
formatter. -/
def testActionInputs : List (String × ParamSpec) :=
  [("requiredParam", ParamSpec.reqOnly true),
   ("optionalParam", ParamSpec.reqOnly false),
   ("fancyParam", .leaf false (some (fun _ => .str "abc123"))
      [.direct fancyValidator] [.direct stringFormatter])]

/-- The flat test action: its handler copies its params into the
response's `params` field. -/
def testActionDef : ActionDef :=
  { name := "testAction",
    description := "this action has some required params", version := 1,
    inputs := testActionInputs, handler := [.setResponseToParams "params"] }

/-- A registry holding only the flat test action at version 1. -/
def testActionRegistry : Registry :=
  ⟨[("testAction", [(1, testActionDef)])]⟩

/-- The inputs of the schema test action: one schema-shaped input whose
children mirror the flat test action's inputs. -/
def schemaActionInputs : List (String × ParamSpec) :=
  [("schemaParam", .schema
     [("requiredParam", ParamSpec.reqOnly true),
      ("optionalParam", ParamSpec.reqOnly false),
      ("fancyParam", .leaf false (some (fun _ => .str "abc123"))
        [.direct fancyValidatorSchema] [.direct stringFormatter])])]

/-- The schema test action. -/
def schemaActionDef : ActionDef :=
  { name := "testAction",
    description := "this action has some required params", version := 1,
    inputs := schemaActionInputs, handler := [.setResponseToParams "params"] }

/-- A registry holding only the schema test action at version 1. -/
def schemaActionRegistry : Registry :=
  ⟨[("testAction", [(1, schemaActionDef)])]⟩

/-- The first named validator: accepts only strings, raising otherwise. -/
def validator1 : Validator := fun _ v =>
  match v with
  | .str _ => .ret (.bool true)
  | _ => .raise "only strings"

/-- The second named validator: accepts only `"correct"`, raising
otherwise. -/
def validator2 : Validator := fun _ v =>
  if valueEq v (.str "correct") then .ret (.bool true)
  else .raise "that is not correct"

/-- The first named formatter: wraps in asterisks. -/
def formatter1 : Formatter := fun _ v => .str ("*" ++ jsToString v ++ "*")

/-- The second named formatter: wraps in tildes. -/
def formatter2 : Formatter := fun _ v => .str ("~" ++ jsToString v ++ "~")

/-- The externally-populated validator lookup table of the fixtures. -/
def fixtureVTable : LookupTable Validator := fun path =>
  if path = "api.validators.validator1" then some validator1
  else if path = "api.validators.validator2" then some validator2
  else none

/-- The externally-populated formatter lookup table of the fixtures. -/
def fixtureFTable : LookupTable Formatter := fun path =>
  if path = "api._formatters.formatter1" then some formatter1
  else if path = "api._formatters.formatter2" then some formatter2
  else none

/-- An engine environment with a given ambient id and the default
missing-value policy, over the fixture lookup tables. -/
def fixtureEnv (id : String) : Env :=
  { ctx := ⟨id⟩, policy := defaultMissingParamChecks,
    vtable := fixtureVTable, ftable := fixtureFTable }

/-- The named-validators test action: one input validated by two indirect
validator references in order. -/
def namedValidatorDef : ActionDef :=
  { name := "testAction", description := "I am a test", version := 1,
    inputs := [("a", .leaf false none
      [.lookup "api.validators.validator1",
       .lookup "api.validators.validator2"] [])],
    handler := [] }

/-- A registry holding only the named-validators test action. -/
def namedValidatorRegistry : Registry :=
  ⟨[("testAction", [(1, namedValidatorDef)])]⟩

/-- The named-formatters test action: one input formatted by two indirect
formatter references in order; the handler echoes the formatted param. -/
def namedFormatterDef : ActionDef :=
  { name := "testAction", description := "I am a test", version := 1,
    inputs := [("a", .leaf false none []
      [.lookup "api._formatters.formatter1",
       .lookup "api._formatters.formatter2"])],
    handler := [.copyParamToResponse "a" "a"] }

/-- A registry holding only the named-formatters test action. -/
def namedFormatterRegistry : Registry :=
  ⟨[("testAction", [(1, namedFormatterDef)])]⟩

/-- The immutability test action: its handler first attempts to assign
into the guarded params, then copies the param into the response. -/
def immutActionDef : ActionDef :=
  { name := "testAction", description := "I am a test", version := 1,
    inputs := [("a", ParamSpec.reqOnly true)],
    handler := [.assignParam "a" (.str "changed!"),
                .copyParamToResponse "a" "a"] }

/-- A registry holding only the immutability test action. -/
def immutRegistry : Registry :=
  ⟨[("testAction", [(1, immutActionDef)])]⟩

/-- The nested error object the version-3 handler writes. -/
def complexError : Value := .obj [("a", .obj [("complex", .str "error")])]

/-- One version of the versioned test action; versions 1 and 2 only
return a value (which the dispatcher ignores), version 3 writes into the
response and sets a complex structured error. -/
def versionedDef (v : Int) : ActionDef :=
  { name := "versionedAction", description := "I am a test", version := v,
    inputs := [],
    handler := if v == 3 then
        [.setResponse "version" (.num 3), .setError complexError]
      else [] }

/-- A registry holding the versioned test action at versions 1, 2 and 3,
plus a single-version action registered only at version 1. -/
def versionedRegistry : Registry :=
  ⟨[("versionedAction",
      [(1, versionedDef 1), (2, versionedDef 2), (3, versionedDef 3)]),
    ("randomNumber",
      [(1, { name := "randomNumber", description := "random",
             version := 1, inputs := [], handler := [] })])]⟩

/-- Read a key off an object-shaped value; non-objects and absent keys
read as the undefined-equivalent. -/
def vGet (v : Value) (key : String) : Value :=
  objGet (match v with | .obj fs => fs | _ => []) key

/-- Whether a handler statement is an attempted assignment into the
guarded params. -/
def isAssign : Stmt → Bool
  | .assignParam _ _ => true
  | _ => false

theorem objGet_cons_ne (k : String) (v : Value) (fs : List (String × Value))
    (key : String) (h : k ≠ key) : objGet ((k, v) :: fs) key = objGet fs key := by
  simp [objGet, List.find?_cons_of_neg, h]

theorem objGet_append_left (xs ys : List (String × Value)) (key : String)
    (h : xs.find? (fun p => p.1 == key) = none) :
    objGet (xs ++ ys) key = objGet ys key := by
  simp [objGet, List.find?_append, h]

/-- The engine's output for a node list never mentions an undeclared
name: its keys are drawn from the declared spec keys. -/
theorem processChildren_objGet_undeclared (env : Env) (path : String)
    (specs : List (String × ParamSpec)) (fields : List (String × Value))
    (key : String) (h : ∀ p ∈ specs, p.1 ≠ key) :
    objGet (processChildren env path specs fields).1 key = .undef := by
  induction specs with
  | nil => simp [processChildren, objGet]
  | cons hd tl ih =>
    obtain ⟨k, cspec⟩ := hd
    have hk : k ≠ key := h (k, cspec) (by simp)
    have htl : ∀ p ∈ tl, p.1 ≠ key := fun p hp => h p (List.mem_cons_of_mem _ hp)
    rcases hpn : processNode env (dottedPath path k) cspec (objGet fields k)
      with ⟨o, err⟩
    rcases hpc : processChildren env path tl fields with ⟨out, restErr⟩
    have hout : objGet out key = .undef := by
      have := ih htl
      rw [hpc] at this
      exact this
    cases o with
    | none => simp [processChildren, hpn, hpc, hout]
    | some v' => simp [processChildren, hpn, hpc, objGet_cons_ne k v' out key hk, hout]

/-- C1: for a leaf input with `required: true` under the default
missing-value policy, supplying `false` or an empty collection is
accepted and forwarded unchanged, while supplying an empty string, null,
or no value at all fails with an error of the form
"<dotted path> is a required parameter for this action" naming the full
dotted path to the missing leaf (e.g. `schemaParam.requiredParam`). -/
theorem required_leaf_missing_semantics (ctx : ApiCtx)
    (vt : LookupTable Validator) (ft : LookupTable Formatter)
    (path : String) (id : String) :
    (processNode ⟨ctx, defaultMissingParamChecks, vt, ft⟩ path
        (ParamSpec.reqOnly true) (.bool false) = (some (.bool false), none))
  ∧ (processNode ⟨ctx, defaultMissingParamChecks, vt, ft⟩ path
        (ParamSpec.reqOnly true) (.list []) = (some (.list []), none))
  ∧ (∀ v, (v = .str "" ∨ v = .null ∨ v = .undef) →
      processNode ⟨ctx, defaultMissingParamChecks, vt, ft⟩ path
        (ParamSpec.reqOnly true) v = (none, some (missingParamError path)))
  ∧ missingParamError path
      = .str ("Error: " ++ path ++ " is a required parameter for this action")
  ∧ ((runAction testActionRegistry (fixtureEnv id) [] "testAction"
        [("requiredParam", .str "")]).error
      = some (.str "Error: requiredParam is a required parameter for this action"))
  ∧ ((runAction testActionRegistry (fixtureEnv id) [] "testAction" []).error
      = some (.str "Error: requiredParam is a required parameter for this action"))
  ∧ ((runAction schemaActionRegistry (fixtureEnv id) [] "testAction"
        [("schemaParam", .obj [])]).error
      = some (.str "Error: schemaParam.requiredParam is a required parameter for this action"))
  ∧ (vGet (objGet (runAction testActionRegistry (fixtureEnv id) [] "testAction"
        [("requiredParam", .bool false)]).response "params") "requiredParam"
      = .bool false)
  ∧ (vGet (objGet (runAction testActionRegistry (fixtureEnv id) [] "testAction"
        [("requiredParam", .list [])]).response "params") "requiredParam"
      = .list []) := by
  refine ⟨rfl, rfl, ?_, rfl, rfl, rfl, rfl, rfl, rfl⟩
  rintro v (rfl | rfl | rfl) <;> rfl

theorem required_leaf_missing_semantics_witness :
    processNode ⟨⟨"x"⟩, defaultMissingParamChecks, (fun _ => none), (fun _ => none)⟩
      "requiredParam" (ParamSpec.reqOnly true) .null
      = (none, some (missingParamError "requiredParam")) :=
  (required_leaf_missing_semantics ⟨"x"⟩ (fun _ => none) (fun _ => none)
    "requiredParam" "x").2.2.1 .null (Or.inr (Or.inl rfl))

/-- C2: an invocation naming an unknown action, or a known action with a
requested version for which no definition is registered, yields the
single combined error "unknown action or invalid apiVersion"; the two
cases are indistinguishable to the caller. -/
theorem unknown_action_combined_error (reg : Registry) (env : Env)
    (sl : List String) (name : String) (raw : List (String × Value))
    (h : reg.versionsOf name = none ∨
      ∃ rv, requestedVersionOf raw = some rv ∧ reg.lookup name rv = none) :
    (runAction reg env sl name raw).error = some unknownActionError
  ∧ unknownActionError = .str "Error: unknown action or invalid apiVersion" := by
  have hres : reg.resolve name (requestedVersionOf raw)
      = .error unknownActionError := by
    rcases h with hnone | ⟨rv, hreq, hlook⟩
    · unfold Registry.resolve
      rw [hnone]
    · rw [hreq]
      unfold Registry.resolve
      cases hvs : reg.versionsOf name with
      | none => rfl
      | some vs =>
        unfold Registry.lookup at hlook
        rw [hvs] at hlook
        simp only [Option.some_bind, Option.map_eq_none'] at hlook
        simp [hlook]
  exact ⟨by simp [runAction, hres], rfl⟩

theorem unknown_action_combined_error_witness :
    ((runAction versionedRegistry (fixtureEnv "x") [] "versionedAction"
        [("apiVersion", .num 10)]).error = some unknownActionError
  ∧ unknownActionError = .str "Error: unknown action or invalid apiVersion") :=
  unknown_action_combined_error versionedRegistry (fixtureEnv "x") []
    "versionedAction" [("apiVersion", .num 10)] (Or.inr ⟨10, rfl, rfl⟩)

/-- A handler prefix free of params assignments runs to the attempted
assignment, which halts execution with the guard's error. -/
theorem execStmts_pre_assign (params : List (String × Value)) (key : String)
    (v : Value) (post : List Stmt) :
    ∀ (pre : List Stmt), pre.all (fun s => !isAssign s) = true → ∀ (r₀ : Response),
      execStmts params (pre ++ .assignParam key v :: post) r₀
        = ((execStmts params pre r₀).1, some (guardedAssignError key)) := by
  intro pre
  induction pre with
  | nil => intro _ r₀; rfl
  | cons s tl ih =>
    intro hpre r₀
    simp only [List.all_cons, Bool.and_eq_true] at hpre
    obtain ⟨hs, htl⟩ := hpre
    cases s with
    | assignParam k w => simp [isAssign] at hs
    | setResponse k w =>
      simp only [List.cons_append, execStmts, List.append_eq]; rw [ih htl]
    | copyParamToResponse rk pk =>
      simp only [List.cons_append, execStmts, List.append_eq]; rw [ih htl]
    | setResponseToParams rk =>
      simp only [List.cons_append, execStmts, List.append_eq]; rw [ih htl]
    | setError w =>
      simp only [List.cons_append, execStmts, List.append_eq]; rw [ih htl]

/-- C3: any attempt by a handler body to assign into the guarded params
object fails, halting the handler, is surfaced as the invocation's error
mentioning the attempted property name, leaves the params seen by later
reads unchanged, while the response container remains freely mutable. -/
theorem params_immutability_guard (params : List (String × Value))
    (pre post : List Stmt) (key : String) (v : Value) (r₀ : Response)
    (id : String) (hpre : pre.all (fun s => !isAssign s) = true) :
    (execStmts params (pre ++ .assignParam key v :: post) r₀
      = ((execStmts params pre r₀).1, some (guardedAssignError key)))
  ∧ (guardedAssignError key
      = .str ("Error: Cannot assign to read only property '" ++ key ++
          "' of object '#<Object>'"))
  ∧ (∀ (rkey : String) (rv : Value) (r : Response),
      execStmts params [.setResponse rkey rv] r
        = ({ r with fields := objSet r.fields rkey rv }, none))
  ∧ ((runAction immutRegistry (fixtureEnv id) [] "testAction"
        [("a", .str "original")]).error = some (guardedAssignError "a"))
  ∧ (objGet (runAction immutRegistry (fixtureEnv id) [] "testAction"
        [("a", .str "original")]).response "a" = .undef)
  ∧ (objGet (runAction immutRegistry (fixtureEnv id) [] "testAction"
        [("a", .str "original")]).receivedParams "a" = .str "original") := by
  exact ⟨execStmts_pre_assign params key v post pre hpre r₀,
    rfl, fun _ _ _ => rfl, rfl, rfl, rfl⟩

theorem params_immutability_guard_witness :
    (execStmts [] ([] ++ .assignParam "a" (.str "x") :: []) ⟨[], none⟩
      = ((execStmts [] [] ⟨[], none⟩).1, some (guardedAssignError "a"))) :=
  (params_immutability_guard [] [] [] "a" (.str "x") ⟨[], none⟩ "x" rfl).1

/-- A prefix of a validator chain all of whose entries resolve and
succeed on the value does not affect the rest of the chain. -/
theorem runValidators_append_ok (ctx : ApiCtx) (table : LookupTable Validator)
    (v : Value) :
    ∀ (pre : List (FnRef Validator)),
      (∀ fr ∈ pre, ∃ f, resolveRef table fr = some f ∧ vOutcomeOk (f ctx v) = true) →
      ∀ (rest : List (FnRef Validator)),
        runValidators ctx table (pre ++ rest) v = runValidators ctx table rest v := by
  intro pre
  induction pre with
  | nil => intro _ rest; rfl
  | cons r tl ih =>
    intro hpre rest
    obtain ⟨f, hres, hok⟩ := hpre r (by simp)
    have htl : ∀ fr ∈ tl, ∃ f, resolveRef table fr = some f ∧
        vOutcomeOk (f ctx v) = true :=
      fun fr hfr => hpre fr (List.mem_cons_of_mem _ hfr)
    simp only [List.cons_append, runValidators, List.append_eq, hres, hok, if_true]
    exact ih htl rest

/-- C4: validators (callables or lookup references) run in declared
order against the formatted value; the first validator to fail determines
the sole error, no later validator runs or overrides it, and a chain
whose validators all return true or the undefined-equivalent yields no
error. -/
theorem validator_chain_first_failure (ctx : ApiCtx)
    (table : LookupTable Validator) (v : Value) (id : String) :
    (∀ (pre post : List (FnRef Validator)) (fr : FnRef Validator) (g : Validator),
      (∀ r ∈ pre, ∃ f, resolveRef table r = some f ∧ vOutcomeOk (f ctx v) = true) →
      resolveRef table fr = some g → vOutcomeOk (g ctx v) = false →
      runValidators ctx table (pre ++ fr :: post) v = some (vOutcomeError (g ctx v)))
  ∧ (∀ (vs : List (FnRef Validator)),
      (∀ r ∈ vs, ∃ f, resolveRef table r = some f ∧ vOutcomeOk (f ctx v) = true) →
      runValidators ctx table vs v = none)
  ∧ ((runAction namedValidatorRegistry (fixtureEnv id) [] "testAction"
        [("a", .num 6)]).error = some (.str "Error: only strings"))
  ∧ ((runAction namedValidatorRegistry (fixtureEnv id) [] "testAction"
        [("a", .str "hello")]).error = some (.str "Error: that is not correct"))
  ∧ ((runAction namedValidatorRegistry (fixtureEnv id) [] "testAction"
        [("a", .str "correct")]).error = none) := by
  refine ⟨?_, ?_, rfl, rfl, rfl⟩
  · intro pre post fr g hpre hres hfail
    rw [runValidators_append_ok ctx table v pre hpre]
    simp [runValidators, hres, hfail]
  · intro vs hvs
    have := runValidators_append_ok ctx table v vs hvs []
    rwa [List.append_nil] at this

theorem validator_chain_first_failure_witness :
    runValidators ⟨"x"⟩ fixtureVTable
      ([] ++ FnRef.lookup "api.validators.validator1" :: []) (.num 6)
      = some (vOutcomeError (validator1 ⟨"x"⟩ (.num 6))) :=
  (validator_chain_first_failure ⟨"x"⟩ fixtureVTable (.num 6) "x").1
    [] [] (.lookup "api.validators.validator1") validator1
    (by intro r hr; cases hr) rfl rfl

/-- C5: formatters run in declared array order, each consuming the
previous formatter's output (`[f1, f2]` applied to `v` yields
`f2 (f1 v)`), and the final formatted value is what reaches both the
validator chain and the handler body. -/
theorem formatter_chain_order (ctx : ApiCtx) (table : LookupTable Formatter)
    (env : Env) (f1 f2 : Formatter) (v : Value)
    (vals : List (FnRef Validator)) (fmts : List (FnRef Formatter))
    (id : String) :
    (runFormatters ctx table [.direct f1, .direct f2] v = f2 ctx (f1 ctx v))
  ∧ ((processPresent env vals fmts v).1 = runFormatters env.ctx env.ftable fmts v)
  ∧ ((processPresent env vals fmts v).2
      = runValidators env.ctx env.vtable vals
          (runFormatters env.ctx env.ftable fmts v))
  ∧ (objGet (runAction namedFormatterRegistry (fixtureEnv id) [] "testAction"
        [("a", .num 6)]).response "a" = .str "~*6*~")
  ∧ (objGet (runAction namedFormatterRegistry (fixtureEnv id) [] "testAction"
        [("a", .num 6)]).receivedParams "a" = .str "~*6*~")
  ∧ (objGet (runAction testActionRegistry (fixtureEnv id) [] "testAction"
        [("requiredParam", .bool true), ("fancyParam", .num 123)]).receivedParams
        "fancyParam" = .str "123") :=
  ⟨rfl, rfl, rfl, rfl, rfl, rfl⟩

theorem foldl_max_ge_init :
    ∀ (rest : List (Int × ActionDef)) (a : Int),
      a ≤ rest.foldl (fun m p => max m p.1) a := by
  intro rest
  induction rest with
  | nil => intro a; simp
  | cons q tl ih =>
    intro a
    exact le_trans (le_max_left a q.1) (ih (max a q.1))

theorem foldl_max_ge_mem :
    ∀ (rest : List (Int × ActionDef)) (p : Int × ActionDef), p ∈ rest →
      ∀ (a : Int), p.1 ≤ rest.foldl (fun m p => max m p.1) a := by
  intro rest
  induction rest with
  | nil => intro p hp; cases hp
  | cons q tl ih =>
    intro p hp a
    rcases List.mem_cons.mp hp with h | h
    · subst h
      exact le_trans (le_max_right a p.1) (foldl_max_ge_init tl (max a p.1))
    · exact ih p h (max a q.1)

theorem foldl_max_eq_init_or_mem :
    ∀ (rest : List (Int × ActionDef)) (a : Int),
      rest.foldl (fun m p => max m p.1) a = a ∨
        ∃ p ∈ rest, rest.foldl (fun m p => max m p.1) a = p.1 := by
  intro rest
  induction rest with
  | nil => intro a; left; rfl
  | cons q tl ih =>
    intro a
    simp only [List.foldl_cons]
    rcases ih (max a q.1) with h | ⟨p, hp, h⟩
    · rcases max_choice a q.1 with hm | hm
      · left; rw [h, hm]
      · right; exact ⟨q, by simp, by rw [h, hm]⟩
    · right; exact ⟨p, List.mem_cons_of_mem _ hp, h⟩

/-- The latest-version pointer is an upper bound of the registered
version numbers. -/
theorem latestVersion_ub (vs : List (Int × ActionDef)) :
    ∀ p ∈ vs, p.1 ≤ latestVersion vs := by
  intro p hp
  cases vs with
  | nil => cases hp
  | cons q tl =>
    obtain ⟨qv, qd⟩ := q
    rcases List.mem_cons.mp hp with h | h
    · subst h; exact foldl_max_ge_init tl qv
    · exact foldl_max_ge_mem tl p h qv

/-- The latest-version pointer of a nonempty version set is one of the
registered version numbers. -/
theorem latestVersion_mem (vs : List (Int × ActionDef)) (hne : vs ≠ []) :
    ∃ p ∈ vs, p.1 = latestVersion vs := by
  cases vs with
  | nil => exact absurd rfl hne
  | cons q tl =>
    obtain ⟨qv, qd⟩ := q
    rcases foldl_max_eq_init_or_mem tl qv with h | ⟨p, hp, h⟩
    · exact ⟨(qv, qd), by simp, by simp [latestVersion, h]⟩
    · exact ⟨p, List.mem_cons_of_mem _ hp, by simp [latestVersion, h]⟩

/-- The definition stored when a version-less raw definition is
registered: version defaults to 1. -/
def registeredDefault (d : RawActionDef) (n : String) : ActionDef :=
  { name := n, description := d.description, version := 1,
    inputs := d.inputs, handler := d.handler }

/-- C6: with no requested version an action resolves to the maximum
registered version number; a registered version `vk` resolves exactly to
`vk`; an action registered without an explicit version resolves to
version 1 when no version is requested. -/
theorem version_resolution (reg : Registry) (name : String)
    (vs : List (Int × ActionDef)) (id : String)
    (hvs : reg.versionsOf name = some vs) (hne : vs ≠ []) :
    (∃ d, reg.resolve name none = .ok (latestVersion vs, d))
  ∧ (∀ p ∈ vs, p.1 ≤ latestVersion vs)
  ∧ (∃ p ∈ vs, p.1 = latestVersion vs)
  ∧ (∀ (vk : Int) (d0 : ActionDef), (vk, d0) ∈ vs →
      ∃ d, reg.resolve name (some vk) = .ok (vk, d))
  ∧ (∀ (d : RawActionDef) (n : String), d.name = some n → d.version = none →
      d.inputs.find? (fun p => reservedParams.contains p.1) = none →
      ∃ reg2, Registry.register ⟨[]⟩ d = .ok reg2 ∧
        ∃ ad, reg2.resolve n none = .ok (1, ad))
  ∧ (objGet (runAction versionedRegistry (fixtureEnv id) [] "versionedAction"
      []).receivedParams "apiVersion" = .num 3)
  ∧ (objGet (runAction versionedRegistry (fixtureEnv id) [] "versionedAction"
      [("apiVersion", .num 1)]).receivedParams "apiVersion" = .num 1)
  ∧ (objGet (runAction versionedRegistry (fixtureEnv id) [] "versionedAction"
      [("apiVersion", .num 2)]).receivedParams "apiVersion" = .num 2)
  ∧ (objGet (runAction versionedRegistry (fixtureEnv id) [] "randomNumber"
      []).receivedParams "apiVersion" = .num 1) := by
  refine ⟨?_, latestVersion_ub vs, latestVersion_mem vs hne, ?_, ?_,
    rfl, rfl, rfl, rfl⟩
  · obtain ⟨p, hp, hpv⟩ := latestVersion_mem vs hne
    have hfind : (vs.find? (fun q => q.1 == latestVersion vs)).isSome := by
      rw [List.find?_isSome]
      exact ⟨p, hp, by simp [hpv]⟩
    obtain ⟨q, hq⟩ := Option.isSome_iff_exists.mp hfind
    exact ⟨q.2, by simp [Registry.resolve, hvs, hq]⟩
  · intro vk d0 hmem
    have hfind : (vs.find? (fun q => q.1 == vk)).isSome := by
      rw [List.find?_isSome]
      exact ⟨(vk, d0), hmem, by simp⟩
    obtain ⟨q, hq⟩ := Option.isSome_iff_exists.mp hfind
    exact ⟨q.2, by simp [Registry.resolve, hvs, hq]⟩
  · intro d n hname hver hnores
    have hval : d.validate = .ok () := by
      unfold RawActionDef.validate
      rw [hname, hnores]
    have hreg2 : Registry.register ⟨[]⟩ d
        = .ok ⟨[(n, [(1, registeredDefault d n)])]⟩ := by
      simp [Registry.register, registeredDefault, hval, hname, hver,
        Registry.versionsOf]
    refine ⟨_, hreg2, registeredDefault d n, ?_⟩
    simp [Registry.resolve, Registry.versionsOf, latestVersion]

theorem version_resolution_witness :
    ∃ d, versionedRegistry.resolve "versionedAction" none
      = .ok (latestVersion
        [(1, versionedDef 1), (2, versionedDef 2), (3, versionedDef 3)], d) :=
  (version_resolution versionedRegistry "versionedAction"
    [(1, versionedDef 1), (2, versionedDef 2), (3, versionedDef 3)] "x"
    rfl (by simp)).1

/-- C7: the Dispatcher always packages the outcome of a resolved,
validated invocation as a well-formed envelope — a fault-free handler's
response and error land in the envelope unchanged, a handler fault lands
in the envelope's error field — and a structured error value written by
the handler (e.g. a nested object) appears in the envelope's error field
unmodified by the pipeline. -/
theorem dispatcher_envelope_passthrough (reg : Registry) (env : Env)
    (sl : List String) (name : String) (raw : List (String × Value))
    (ver : Int) (d : ActionDef) (normalized : List (String × Value))
    (id : String)
    (hres : reg.resolve name (requestedVersionOf raw) = .ok (ver, d))
    (hval : processInputs env d.inputs raw = (normalized, none)) :
    (∀ r : Response,
      execStmts (invokeParams sl name ver d normalized raw) d.handler
          ⟨[], none⟩ = (r, none) →
      runAction reg env sl name raw
        = { response := r.fields, error := r.error,
            receivedParams := invokeParams sl name ver d normalized raw })
  ∧ (∀ (r : Response) (f : Value),
      execStmts (invokeParams sl name ver d normalized raw) d.handler
          ⟨[], none⟩ = (r, some f) →
      (runAction reg env sl name raw).error = some f)
  ∧ ((runAction versionedRegistry (fixtureEnv id) [] "versionedAction"
        [("apiVersion", .num 3)]).error = some complexError)
  ∧ (vGet (vGet complexError "a") "complex" = .str "error")
  ∧ (objGet (runAction versionedRegistry (fixtureEnv id) [] "versionedAction"
        [("apiVersion", .num 3)]).response "version" = .num 3) := by
  refine ⟨?_, ?_, rfl, rfl, rfl⟩
  · intro r hexec
    simp [runAction, hres, hval, hexec]
  · intro r f hexec
    simp [runAction, hres, hval, hexec]

theorem dispatcher_envelope_passthrough_witness :
    (runAction versionedRegistry (fixtureEnv "x") [] "versionedAction"
        [("apiVersion", .num 3)]).error = some complexError :=
  (dispatcher_envelope_passthrough versionedRegistry (fixtureEnv "x") []
    "versionedAction" [("apiVersion", .num 3)] 3 (versionedDef 3) [] "x"
    rfl rfl).2.2.1

/-- C8: a caller-supplied input whose name is absent from the target
action's declared inputs, the process-wide safelist and the reserved
names never appears in the envelope's receivedParams, while declared
supplied inputs do appear; undeclared child keys inside a schema-shaped
input are filtered the same way. -/
theorem safelist_param_filtering (reg : Registry) (env : Env)
    (sl : List String) (name : String) (raw : List (String × Value))
    (key : String) (ver : Int) (d : ActionDef) (id : String)
    (hres : reg.resolve name (requestedVersionOf raw) = .ok (ver, d))
    (hdecl : ∀ p ∈ d.inputs, p.1 ≠ key)
    (hsl : key ∉ sl)
    (hresv : key ∉ reservedParams) :
    (objGet (runAction reg env sl name raw).receivedParams key = .undef)
  ∧ (objGet (runAction testActionRegistry (fixtureEnv id) [] "testAction"
      [("requiredParam", .bool true),
       ("sleepDuration", .bool true)]).receivedParams "sleepDuration" = .undef)
  ∧ (objGet (runAction testActionRegistry (fixtureEnv id) [] "testAction"
      [("requiredParam", .bool true),
       ("sleepDuration", .bool true)]).receivedParams "requiredParam" = .bool true)
  ∧ (vGet (objGet (runAction schemaActionRegistry (fixtureEnv id) [] "testAction"
      [("schemaParam", .obj [("requiredParam", .bool true),
        ("sleepDuration", .bool true)])]).receivedParams "schemaParam")
      "sleepDuration" = .undef)
  ∧ (vGet (objGet (runAction schemaActionRegistry (fixtureEnv id) [] "testAction"
      [("schemaParam", .obj [("requiredParam", .bool true),
        ("sleepDuration", .bool true)])]).receivedParams "schemaParam")
      "requiredParam" = .bool true) := by
  refine ⟨?_, rfl, rfl, rfl, rfl⟩
  simp only [reservedParams, List.mem_cons, List.not_mem_nil, or_false,
    not_or] at hresv
  obtain ⟨hkf, hkc, hka, hkv⟩ := hresv
  rcases hpi : processInputs env d.inputs raw with ⟨normalized, verr⟩
  have hnorm : objGet normalized key = .undef := by
    have h := processChildren_objGet_undeclared env "" d.inputs raw key hdecl
    have hpi' : processChildren env "" d.inputs raw = (normalized, verr) := hpi
    rw [hpi'] at h
    exact h
  have hbase : (([("action", Value.str name), ("apiVersion", Value.num ver)] :
      List (String × Value)).find? (fun p => p.1 == key)) = none := by
    rw [List.find?_eq_none]
    intro x hx
    rcases List.mem_cons.mp hx with rfl | hx2
    · simp only [Prod.fst, beq_iff_eq]
      exact fun h => hka h.symm
    · rcases List.mem_cons.mp hx2 with rfl | hx3
      · simp only [Prod.fst, beq_iff_eq]
        exact fun h => hkv h.symm
      · cases hx3
  have hecho : ((safelistEcho sl (d.inputs.map (fun p => p.1)) raw).find?
      (fun p => p.1 == key)) = none := by
    rw [List.find?_eq_none]
    intro x hx
    have hxf := List.mem_filter.mp hx
    simp only [Bool.and_eq_true] at hxf
    intro hbeq
    have hxk : x.1 = key := by
      exact beq_iff_eq.mp hbeq
    have : sl.contains x.1 = true := hxf.2.1.1
    rw [hxk] at this
    rw [List.contains_eq_any_beq] at this
    rcases List.any_eq_true.mp this with ⟨y, hy, hyk⟩
    rw [beq_iff_eq.mp hyk] at hsl
    exact hsl hy
  have hparams : objGet (invokeParams sl name ver d normalized raw) key
      = .undef := by
    unfold invokeParams
    rw [objGet_append_left, hnorm]
    rw [List.find?_append, hbase, hecho]
    rfl
  unfold runAction
  rw [hres]
  simp only [hpi]
  cases verr with
  | some e => exact hparams
  | none =>
    rcases hex : execStmts (invokeParams sl name ver d normalized raw)
        d.handler ⟨[], none⟩ with ⟨resp, fault⟩
    simp only [hex]
    exact hparams

theorem safelist_param_filtering_witness :
    objGet (runAction testActionRegistry (fixtureEnv "x") [] "testAction"
      [("requiredParam", .bool true),
       ("sleepDuration", .bool true)]).receivedParams "sleepDuration" = .undef :=
  (safelist_param_filtering testActionRegistry (fixtureEnv "x") [] "testAction"
    [("requiredParam", .bool true), ("sleepDuration", .bool true)]
    "sleepDuration" 1 testActionDef "x" rfl
    (by
      intro p hp
      simp only [testActionDef, testActionInputs, List.mem_cons,
        List.not_mem_nil, or_false] at hp
      rcases hp with rfl | rfl | rfl <;> decide)
    (List.not_mem_nil "sleepDuration")
    (by decide)).1

/-- C9: validating an action definition fails with
"name is required for this action" when the name is absent, fails with an
error stating the input is a reserved param when a top-level input name
collides with a reserved parameter name, and succeeds for a definition
with a name and no reserved-name collisions. -/
theorem registration_validation (d : RawActionDef) :
    (d.name = none → d.validate = .error "name is required for this action")
  ∧ (∀ n, d.name = some n →
      (∃ p ∈ d.inputs, reservedParams.contains p.1 = true) →
      ∃ q, q ∈ d.inputs ∧ reservedParams.contains q.1 = true ∧
        d.validate = .error
          ("input `" ++ q.1 ++ "` in action `" ++ n ++ "` is a reserved param"))
  ∧ (∀ n, d.name = some n →
      d.inputs.find? (fun p => reservedParams.contains p.1) = none →
      d.validate = .ok ())
  ∧ (RawActionDef.validate
      { name := none, description := "bad", version := none,
        inputs := [], handler := [] }
      = .error "name is required for this action")
  ∧ (RawActionDef.validate
      { name := some "bad", description := "bad", version := none,
        inputs := [("apiVersion", ParamSpec.reqOnly true)], handler := [] }
      = .error "input `apiVersion` in action `bad` is a reserved param")
  ∧ (RawActionDef.validate
      { name := some "good", description := "good", version := none,
        inputs := [], handler := [] }
      = .ok ()) := by
  refine ⟨?_, ?_, ?_, rfl, rfl, rfl⟩
  · intro h
    unfold RawActionDef.validate
    rw [h]
  · intro n hn ⟨p, hp, hpr⟩
    have hfind : (d.inputs.find? (fun p => reservedParams.contains p.1)).isSome := by
      rw [List.find?_isSome]
      exact ⟨p, hp, hpr⟩
    obtain ⟨q, hq⟩ := Option.isSome_iff_exists.mp hfind
    refine ⟨q, List.mem_of_find?_eq_some hq,
      List.find?_some (p := fun q : String × ParamSpec => reservedParams.contains q.1) hq, ?_⟩
    unfold RawActionDef.validate
    rw [hn, hq]
  · intro n hn hfind
    unfold RawActionDef.validate
    rw [hn, hfind]

theorem registration_validation_witness :
    RawActionDef.validate
      { name := (none : Option String), description := "bad", version := none,
        inputs := [], handler := [] }
      = .error "name is required for this action" :=
  (registration_validation
    { name := none, description := "bad", version := none,
      inputs := [], handler := [] }).1 rfl

/-- C10: every validator and formatter declared as a plain function is
invoked with the framework's ambient context, so a validator's failure
message can incorporate that context's id (e.g. the process id); the same
holds for validators of nested schema leaves. -/
theorem ambient_context_in_chains (ctx : ApiCtx)
    (vt : LookupTable Validator) (ft : LookupTable Formatter)
    (f : Validator) (g : Formatter) (v : Value) :
    (runValidators ctx vt [.direct f] v
      = if vOutcomeOk (f ctx v) then none else some (vOutcomeError (f ctx v)))
  ∧ (runFormatters ctx ft [.direct g] v = g ctx v)
  ∧ (∀ id, (runAction testActionRegistry (fixtureEnv id) [] "testAction"
      [("requiredParam", .bool true), ("fancyParam", .num 123)]).error
      = some (.str ("Error: " ++ ("fancyParam should be \"abc123\".  so says " ++ id))))
  ∧ (∀ id, (runAction schemaActionRegistry (fixtureEnv id) [] "testAction"
      [("schemaParam", .obj [("requiredParam", .bool true),
        ("fancyParam", .num 123)])]).error
      = some (.str ("Error: " ++ ("fancyParam should be \"abc123\".  so says " ++ id)))) := by
  refine ⟨?_, rfl, fun _ => rfl, fun _ => rfl⟩
  cases h : vOutcomeOk (f ctx v) <;> simp [runValidators, resolveRef, h]

end ActionHero
